import Mathlib

/-!
# Verification of `git-lfs-authenticate` (authenticate.go)

A shallow embedding of the single source file `authenticate.go` of the
`lfs-test-server` repository (the `git-lfs-authenticate` command), together
with theorems settling the specification claims about it.

Conventions of the embedding:
* Machine strings are Lean `String`s; where Go indexes raw bytes we work on
  the underlying character list, which agrees with Go's byte view because the
  relevant delimiters (`'.'`, `' '`, `".git"`, hex and base64 alphabets) are
  ASCII.
* External effects (looking up binaries, running subprocesses, reading the
  environment and the configuration file) are captured in a `World` record;
  the program is a pure function of the `World` and its arguments.
* The HMAC-SHA256 primitive of the JWT library is kept as an explicit
  function parameter `mac`; every theorem about tokens holds for an arbitrary
  `mac`, so nothing depends on the concrete hash.
-/

/-- Result of running an external process, as seen through Go's `exec` API:
`exited 0` models a `nil` error from `Run`/`Output`, `exited (n+1)` models an
`*exec.ExitError` (the process ran and exited with a non-zero status), and
`failed msg` models any other error (the process could not be run at all). -/
inductive ProcResult where
  | exited (code : Nat)
  | failed (msg : String)
  deriving DecidableEq

/-- The configuration record of authenticate.go (`type Config struct`),
holding the base64 text of the signing secret and the endpoint URL. -/
structure Config where
  secret : String
  href : String
  deriving DecidableEq

/-- Outcome of opening and JSON-decoding `${HOME}/.git-lfs-authenticate`
(authenticate.go lines 75-84): the file may fail to open, fail to decode,
or yield a `Config`. -/
inductive ConfigLoad where
  | openFail (msg : String)
  | decodeFail (msg : String)
  | loaded (cfg : Config)
  deriving DecidableEq

/-- The external environment of one invocation: availability and behaviour of
the `gitolite` binary, availability of `perl`, the `GL_BINDIR` and `GL_USER`
environment variables, the behaviour of the gitolite-v2 fallback query, and
the configuration file. -/
structure World where
  gitolite : Option (String → String → String → ProcResult)
  perl : Bool
  glBindir : String
  perlRun : String → Except String String
  glUser : String
  config : ConfigLoad

/-- A subprocess spawned by `checkAccess`: either the primary
`gitolite access -q <repo> <user> <perm>` call or the fallback
`perl -I<bindir> -Mgitolite -e cli_repo_rights(<repo>)` call. -/
inductive AuthQuery where
  | gitolite (repo user perm : String)
  | perl (bindir repo : String)
  deriving DecidableEq

/-- Go `unicode.IsSpace`, the predicate used by `strings.TrimSpace`:
true exactly on the Unicode white-space code points. -/
def goIsSpace (c : Char) : Bool :=
  let n := c.toNat
  decide (n = 9 ∨ n = 10 ∨ n = 11 ∨ n = 12 ∨ n = 13 ∨ n = 32 ∨ n = 0x85 ∨
    n = 0xa0 ∨ n = 0x1680 ∨ (0x2000 ≤ n ∧ n ≤ 0x200a) ∨ n = 0x2028 ∨
    n = 0x2029 ∨ n = 0x202f ∨ n = 0x205f ∨ n = 0x3000)

/-- Go `strings.TrimSpace`: drop white space from both ends of the string. -/
def goTrim (s : String) : String :=
  String.mk (((s.data.dropWhile goIsSpace).reverse.dropWhile goIsSpace).reverse)

/-- The resource normalisation of `checkAccess` (authenticate.go lines 32-35):
if the repository name ends in `".git"` the last four bytes are dropped. -/
def stripGitSuffix (repo : String) : String :=
  if ".git".data.isSuffixOf repo.data then
    String.mk (repo.data.take (repo.data.length - 4))
  else repo

/-- Go `strings.Contains sub` on character lists: does `sub` occur as a
contiguous substring of `l`? -/
def listContainsSub (l sub : List Char) : Bool :=
  sub.isPrefixOf l ||
    (match l with
     | [] => false
     | _ :: t => listContainsSub t sub)

/-- The access decision of authenticate.go lines 31-66 (`func checkAccess`),
instrumented with the list of subprocesses it spawns.  The primary path runs
`gitolite access -q`; a `nil` error means allow, an `*exec.ExitError` means
deny, any other error is surfaced.  The fallback path (gitolite binary not
resolvable) runs the gitolite-v2 perl query when `perl` resolves and
`GL_BINDIR` is non-blank, takes the output bytes before the first `' '` byte
as the ACL string, and allows iff the permission occurs in it.  With neither
path available a fixed error is returned. -/
def checkAccessT (w : World) (repo user perm : String) :
    Except String Bool × List AuthQuery :=
  let repo2 := stripGitSuffix repo
  match w.gitolite with
  | some run =>
    (match run repo2 user perm with
     | .exited 0 => (.ok true, [.gitolite repo2 user perm])
     | .exited _ => (.ok false, [.gitolite repo2 user perm])
     | .failed m => (.error m, [.gitolite repo2 user perm]))
  | none =>
    let bindDir := goTrim w.glBindir
    if w.perl ∧ bindDir ≠ "" then
      match w.perlRun repo2 with
      | .error m => (.error m, [.perl bindDir repo2])
      | .ok out =>
        match out.data.findIdx? (fun c => c == ' ') with
        | none => (.error "invalid output from cli_repo_rights", [.perl bindDir repo2])
        | some i =>
          (.ok (listContainsSub (out.data.take i) perm.data), [.perl bindDir repo2])
    else
      (.error "failed to check ACL (no gitolite command or GL_BINDDIR)", [])

/-- Value of one hex digit, as accepted by Go `encoding/hex` (both cases). -/
def hexDigitVal (c : Char) : Option Nat :=
  if 48 ≤ c.toNat ∧ c.toNat ≤ 57 then some (c.toNat - 48)
  else if 97 ≤ c.toNat ∧ c.toNat ≤ 102 then some (c.toNat - 87)
  else if 65 ≤ c.toNat ∧ c.toNat ≤ 70 then some (c.toNat - 55)
  else none

/-- Go `hex.DecodeString`: pairs of hex digits; odd length or a non-hex
character is an error (modelled as `none`). -/
def hexDecode : List Char → Option (List Nat)
  | [] => some []
  | [_] => none
  | a :: b :: rest =>
    match hexDigitVal a, hexDigitVal b with
    | some x, some y => (hexDecode rest).map (fun r => (16 * x + y) :: r)
    | _, _ => none

/-- The OID format check of authenticate.go lines 104-110: the argument must
hex-decode without error to exactly 32 bytes. -/
def validOid (s : String) : Bool :=
  match hexDecode s.data with
  | some d => d.length == 32
  | none => false

/-- The alphabet of Go `base64.StdEncoding`. -/
def stdAlphaChars : List Char :=
  "ABCDEFGHIJKLMNOPQRSTUVWXYZabcdefghijklmnopqrstuvwxyz0123456789+/".data

/-- Index of a character in the standard base64 alphabet (64 if absent). -/
def stdVal (c : Char) : Nat := stdAlphaChars.indexOf c

/-- Go `base64.StdEncoding.DecodeString` on the character list: four-character
quanta, `=` padding allowed only at the end, decoded to bytes.  (Go's decoder
reports the byte offset of the first corrupt input byte in its error; the
offset is irrelevant here, so failure is modelled as `none`.) -/
def stdB64DecodeGo : List Char → Option (List Nat)
  | [] => some []
  | c1 :: c2 :: c3 :: c4 :: rest =>
    let v1 := stdVal c1
    let v2 := stdVal c2
    if v1 < 64 ∧ v2 < 64 then
      if c3 = '=' then
        if c4 = '=' ∧ rest = [] then some [v1 * 4 + v2 / 16] else none
      else
        let v3 := stdVal c3
        if v3 < 64 then
          if c4 = '=' then
            if rest = [] then some [v1 * 4 + v2 / 16, v2 % 16 * 16 + v3 / 4] else none
          else
            let v4 := stdVal c4
            if v4 < 64 then
              (stdB64DecodeGo rest).map
                (fun r => (v1 * 4 + v2 / 16) :: (v2 % 16 * 16 + v3 / 4) :: (v3 % 4 * 64 + v4) :: r)
            else none
        else none
    else none
  | _ => none

/-- Go `base64.StdEncoding.DecodeString` (authenticate.go line 86), with the
decoder's tolerance for embedded newlines. -/
def stdB64Decode (s : String) : Option (List Nat) :=
  stdB64DecodeGo (s.data.filter (fun c => !(c == '\r' || c == '\n')))

/-- The alphabet of base64url (`base64.RawURLEncoding`), used by JWTs. -/
def urlAlphaChars : List Char :=
  "ABCDEFGHIJKLMNOPQRSTUVWXYZabcdefghijklmnopqrstuvwxyz0123456789-_".data

/-- Character for a 6-bit value in the base64url alphabet. -/
def b64Char (n : Nat) : Char := urlAlphaChars.getD (n % 64) 'A'

/-- Index of a character in the base64url alphabet (64 if absent). -/
def b64Val (c : Char) : Nat := urlAlphaChars.indexOf c

/-- Unpadded base64url encoding of a byte list (`base64.RawURLEncoding`, the
segment encoding of JWTs). -/
def b64EncodeBytes : List Nat → List Char
  | b1 :: b2 :: b3 :: rest =>
    b64Char (b1 / 4) :: b64Char (b1 % 4 * 16 + b2 / 16) ::
      b64Char (b2 % 16 * 4 + b3 / 64) :: b64Char (b3 % 64) :: b64EncodeBytes rest
  | [b1, b2] => [b64Char (b1 / 4), b64Char (b1 % 4 * 16 + b2 / 16), b64Char (b2 % 16 * 4)]
  | [b1] => [b64Char (b1 / 4), b64Char (b1 % 4 * 16)]
  | [] => []

/-- Unpadded base64url decoding, inverse of `b64EncodeBytes` on valid input. -/
def b64DecodeBytes : List Char → Option (List Nat)
  | c1 :: c2 :: c3 :: c4 :: rest =>
    let v1 := b64Val c1
    let v2 := b64Val c2
    let v3 := b64Val c3
    let v4 := b64Val c4
    if v1 < 64 ∧ v2 < 64 ∧ v3 < 64 ∧ v4 < 64 then
      (b64DecodeBytes rest).map
        (fun r => (v1 * 4 + v2 / 16) :: (v2 % 16 * 16 + v3 / 4) :: (v3 % 4 * 64 + v4) :: r)
    else none
  | [c1, c2, c3] =>
    let v1 := b64Val c1
    let v2 := b64Val c2
    let v3 := b64Val c3
    if v1 < 64 ∧ v2 < 64 ∧ v3 < 64 then
      some [v1 * 4 + v2 / 16, v2 % 16 * 16 + v3 / 4]
    else none
  | [c1, c2] =>
    let v1 := b64Val c1
    let v2 := b64Val c2
    if v1 < 64 ∧ v2 < 64 then some [v1 * 4 + v2 / 16] else none
  | [_] => none
  | [] => some []

/-- UTF-8 encoding of one character, as Go lays out string bytes. -/
def utf8Bytes (c : Char) : List Nat :=
  let n := c.toNat
  if n < 0x80 then [n]
  else if n < 0x800 then [0xc0 + n / 64, 0x80 + n % 64]
  else if n < 0x10000 then [0xe0 + n / 4096, 0x80 + n / 64 % 64, 0x80 + n % 64]
  else [0xf0 + n / 0x40000, 0x80 + n / 4096 % 64, 0x80 + n / 64 % 64, 0x80 + n % 64]

/-- UTF-8 byte sequence of a character list. -/
def bytesOf : List Char → List Nat
  | [] => []
  | c :: t => utf8Bytes c ++ bytesOf t

/-- UTF-8 byte sequence of a string, Go's `[]byte(s)`. -/
def strBytes (s : String) : List Nat := bytesOf s.data

/-- Decimal digit character (`'0'` … `'9'`). -/
def digitChar (n : Nat) : Char :=
  match n with
  | 0 => '0' | 1 => '1' | 2 => '2' | 3 => '3' | 4 => '4'
  | 5 => '5' | 6 => '6' | 7 => '7' | 8 => '8' | _ => '9'

/-- Accumulator loop of decimal printing: digits of `n` followed by `acc`. -/
def natDecGo (n : Nat) (acc : List Char) : List Char :=
  if n < 10 then digitChar n :: acc
  else natDecGo (n / 10) (digitChar (n % 10) :: acc)
termination_by n
decreasing_by exact Nat.div_lt_self (by omega) (by omega)

/-- Decimal digit list of a natural number. -/
def natDec (n : Nat) : List Char := natDecGo n []

/-- Number of decimal digits of a natural number. -/
def numDigits (n : Nat) : Nat :=
  if n < 10 then 1 else numDigits (n / 10) + 1
termination_by n
decreasing_by exact Nat.div_lt_self (by omega) (by omega)

/-- Decimal rendering of an integer, as `encoding/json` prints an `int64`. -/
def intToDec (e : Int) : List Char :=
  if e < 0 then '-' :: natDec (-e).toNat else natDec e.toNat

/-- Digit-accumulating scan of a decimal number terminated by `','`
(byte 44), the shape the expiry claim has inside the payload JSON. -/
def digitsVal : List Nat → Nat → Option Nat
  | [], _ => none
  | d :: rest, acc =>
    if d = 44 then some acc
    else if 48 ≤ d ∧ d ≤ 57 then digitsVal rest (10 * acc + (d - 48)) else none

/-- Parse a non-empty decimal numeral (terminated by `','`) from bytes. -/
def parseNatB (l : List Nat) : Option Nat :=
  match l with
  | [] => none
  | d :: _ => if 48 ≤ d ∧ d ≤ 57 then digitsVal l 0 else none

/-- Parse an optionally signed decimal numeral (terminated by `','`). -/
def parseIntB (l : List Nat) : Option Int :=
  match l with
  | [] => none
  | d :: rest =>
    if d = 45 then (parseNatB rest).map (fun n : Nat => -(n : Int))
    else (parseNatB l).map (fun n : Nat => (n : Int))

/-- Extract the expiry claim from payload JSON bytes: the payload of every
token this program issues starts with `{"exp":<number>,`, so the decoder
reads that field.  Bytes 123 34 101 120 112 34 58 spell `{"exp":`. -/
def parseExpBytes (l : List Nat) : Option Int :=
  match l with
  | 123 :: 34 :: 101 :: 120 :: 112 :: 34 :: 58 :: rest => parseIntB rest
  | _ => none

/-- Go `Time.Unix()` on an instant measured in nanoseconds since the epoch:
floor division by 10^9. -/
def unixSec (t : Int) : Int := t.ediv 1000000000

/-- The expiry claim computed at authenticate.go line 139:
`now.Add(5 * time.Minute).Unix()` for issuance instant `t` (nanoseconds). -/
def expOf (t : Int) : Int := unixSec (t + 300 * 1000000000)

/-- Lower-case hex digit character. -/
def hexLower (n : Nat) : Char := "0123456789abcdef".data.getD (n % 16) '0'

/-- Escape of one character inside a JSON string produced by Go
`encoding/json` (HTML escaping on, the `json.Marshal` default used by the
JWT library for the claims and by `json.NewEncoder` for the response). -/
def jescChar (c : Char) : List Char :=
  if c = '\\' then ['\\', '\\']
  else if c = '"' then ['\\', '"']
  else if c = '\n' then ['\\', 'n']
  else if c = '\r' then ['\\', 'r']
  else if c = '\t' then ['\\', 't']
  else if c.toNat < 32 then ['\\', 'u', '0', '0', hexLower (c.toNat / 16), hexLower (c.toNat % 16)]
  else if c = '<' then ['\\', 'u', '0', '0', '3', 'c']
  else if c = '>' then ['\\', 'u', '0', '0', '3', 'e']
  else if c = '&' then ['\\', 'u', '0', '0', '2', '6']
  else if c.toNat = 0x2028 then ['\\', 'u', '2', '0', '2', '8']
  else if c.toNat = 0x2029 then ['\\', 'u', '2', '0', '2', '9']
  else [c]

/-- JSON string literal for `s`, as `encoding/json` renders it. -/
def jsonQuote (s : String) : String :=
  "\"" ++ String.mk (s.data.flatMap jescChar) ++ "\""

/-- The JSON serialisation of the claim map built at authenticate.go lines
135-140: `encoding/json` marshals a map with its keys sorted, so the claims
`user`, `repo`, `op`, `exp` appear in the order `exp`, `op`, `repo`, `user`. -/
def payloadJson (user repo op : String) (e : Int) : String :=
  "\x7b\"exp\":" ++ String.mk (intToDec e) ++ ",\"op\":" ++ jsonQuote op ++
    ",\"repo\":" ++ jsonQuote repo ++ ",\"user\":" ++ jsonQuote user ++ "\x7d"

/-- The base64url-encoded JWT header `{"alg":"HS256","typ":"JWT"}` produced
by `jwt.NewWithClaims(jwt.SigningMethodHS256, ...)`. -/
def headerB64Chars : List Char :=
  b64EncodeBytes (strBytes "\x7b\"alg\":\"HS256\",\"typ\":\"JWT\"\x7d")

/-- The signed token string of `token.SignedString(secret)` at
authenticate.go line 143: `base64url(header) ++ "." ++ base64url(payload)`
signed by `mac` (the HMAC-SHA256 primitive, kept abstract) over the
UTF-8 bytes of that signing input, with the base64url signature appended. -/
def issueToken (mac : List Nat → List Nat → List Nat) (secret : List Nat)
    (user repo op : String) (t : Int) : String :=
  let p64 : List Char := b64EncodeBytes (strBytes (payloadJson user repo op (expOf t)))
  let si : List Char := headerB64Chars ++ '.' :: p64
  let sg : List Char := b64EncodeBytes (mac secret (bytesOf si))
  String.mk (si ++ '.' :: sg)

/-- Split a character list at every `'.'`. -/
def splitGo : List Char → List Char → List (List Char)
  | [], acc => [acc.reverse]
  | c :: rest, acc =>
    if c = '.' then acc.reverse :: splitGo rest [] else splitGo rest (c :: acc)

/-- The `'.'`-separated segments of a token string's characters. -/
def splitDots (l : List Char) : List (List Char) := splitGo l []

/-- Decoded expiry claim of a JWT string: base64url-decode the middle
segment and read its `exp` field. -/
def expOfToken (tok : String) : Option Int :=
  match splitDots tok.data with
  | [_, p, _] => (b64DecodeBytes p).bind parseExpBytes
  | _ => none

/-- JWT validation as the consumer performs it (modelled from the spec's
credential contract: signature recomputation with the shared secret plus the
expiry window check of the JWT library, `now ≤ exp`). -/
def verifyToken (mac : List Nat → List Nat → List Nat) (secret : List Nat)
    (tok : String) (tc : Int) : Bool :=
  (match splitDots tok.data with
   | [h, p, s] => b64EncodeBytes (mac secret (bytesOf (h ++ '.' :: p))) == s
   | _ => false) &&
  (match expOfToken tok with
   | some e => decide (tc ≤ e)
   | none => false)

/-- A claim value: JSON string or integer. -/
inductive ClaimVal where
  | str (s : String)
  | int (n : Int)
  deriving DecidableEq

/-- The claim map literal of authenticate.go lines 135-140, in source order:
`user`, `repo`, `op`, and `exp = now.Add(5 * time.Minute).Unix()`. -/
def makeClaims (user repo op : String) (t : Int) : List (String × ClaimVal) :=
  [("user", .str user), ("repo", .str repo), ("op", .str op), ("exp", .int (expOf t))]

/-- The error classes with which authenticate.go's `main` terminates, each
carrying the data its diagnostic interpolates. -/
inductive ErrClass where
  | usage
  | configOpen (msg : String)
  | configDecode (msg : String)
  | secretDecode
  | invalidRepo (repo : String)
  | invalidOperation (op : String)
  | invalidOid (oid : String)
  | missingUser
  | authority (msg : String)
  | denied
  deriving DecidableEq

/-- The response struct of authenticate.go lines 22-25 and 145-150: a header
map (here the single `Authorization` entry) and the endpoint URL. -/
structure Response where
  header : List (String × String)
  href : String
  deriving DecidableEq

/-- The `main` function of authenticate.go (lines 69-163), as a pure function
of the external `World`, the MAC primitive, the argument vector (including
the program name, Go's `os.Args`) and the invocation instant `now` (UTC
nanoseconds).  It returns the terminal outcome together with the list of
authority subprocesses spawned on the way. -/
def mainRun (w : World) (mac : List Nat → List Nat → List Nat)
    (args : List String) (now : Int) : Except ErrClass Response × List AuthQuery :=
  if args.length < 3 ∨ args.length > 4 then (.error .usage, []) else
  match w.config with
  | .openFail m => (.error (.configOpen m), [])
  | .decodeFail m => (.error (.configDecode m), [])
  | .loaded cfg =>
    match stdB64Decode cfg.secret with
    | none => (.error .secretDecode, [])
    | some secret =>
      let repo := goTrim (args.getD 1 "")
      if repo = "" then (.error (.invalidRepo repo), []) else
      let operation := goTrim (args.getD 2 "")
      if operation ≠ "upload" ∧ operation ≠ "download" then
        (.error (.invalidOperation operation), [])
      else
      if args.length ≥ 4 ∧ validOid (args.getD 3 "") = false then
        (.error (.invalidOid (args.getD 3 "")), [])
      else
      let user := goTrim w.glUser
      if user = "" then (.error .missingUser, []) else
      let perm := if operation = "upload" then "W" else "R"
      match checkAccessT w repo user perm with
      | (.error m, qs) => (.error (.authority m), qs)
      | (.ok false, qs) => (.error .denied, qs)
      | (.ok true, qs) =>
        let tok := issueToken mac secret user repo operation now
        (.ok ⟨[("Authorization", "Bearer " ++ tok)], cfg.href⟩, qs)

/-- Escape of one character under Go's `%q` verb (`strconv.Quote`): the
escapes Go uses for characters that can occur in command arguments.  (Go also
maps non-printable runes above 0x7f to `\u` escapes; those cannot arise in
the claims checked here and are left as-is.) -/
def escChar (c : Char) : List Char :=
  if c = '\\' then ['\\', '\\']
  else if c = '"' then ['\\', '"']
  else if c = '\x07' then ['\\', 'a']
  else if c = '\x08' then ['\\', 'b']
  else if c = '\x0c' then ['\\', 'f']
  else if c = '\n' then ['\\', 'n']
  else if c = '\r' then ['\\', 'r']
  else if c = '\t' then ['\\', 't']
  else if c = '\x0b' then ['\\', 'v']
  else if c.toNat < 32 ∨ c.toNat = 127 then
    ['\\', 'x', hexLower (c.toNat / 16), hexLower (c.toNat % 16)]
  else [c]

/-- Go `%q` rendering of a string: double quotes around the escaped body. -/
def goQuote (s : String) : String :=
  "\"" ++ String.mk (s.data.flatMap escChar) ++ "\""

/-- The diagnostic each failure writes to standard error (authenticate.go's
`fmt.Fprintf`/`Fprintln` calls), including the trailing newline.  The
invalid-operation format string contains an embedded `\n` before the period
in the source, so that diagnostic spans two lines. -/
def errMsg : ErrClass → String
  | .usage => "Usage: git-lfs-authenticate <repo> <operation> [oid]\n"
  | .configOpen m => "Error: failed to open config file: " ++ m ++ "\n"
  | .configDecode m => "Error: failed to decode config: " ++ m ++ "\n"
  | .secretDecode => "Error: failed to decode secret key: illegal base64 data\n"
  | .invalidRepo r => "Error: invalid repo name " ++ goQuote r ++ "\n"
  | .invalidOperation o =>
    "Error: invalid operation " ++ goQuote o ++ "\n. Expected \"upload\" or \"download\".\n"
  | .invalidOid s => "Error: invalid OID " ++ goQuote s ++ ".\n"
  | .missingUser => "Error: missing GL_USER environment variable.\n"
  | .authority m => "Error: failed to find gitolite command: " ++ m ++ "\n"
  | .denied => "Error: Access denied!\n"

/-- JSON object for the header map of the response (single-entry map). -/
def headerJson (hdr : List (String × String)) : String :=
  "\x7b" ++ String.intercalate ","
    (hdr.map (fun kv => jsonQuote kv.1 ++ ":" ++ jsonQuote kv.2)) ++ "\x7d"

/-- `json.NewEncoder(buf).Encode(resp)` of authenticate.go lines 152-157:
the response object with `omitempty` on both fields, plus the newline the
encoder appends. -/
def encodeResponse (r : Response) : String :=
  "\x7b" ++ String.intercalate ","
    ((if r.header.isEmpty then [] else ["\"header\":" ++ headerJson r.header]) ++
     (if r.href = "" then [] else ["\"href\":" ++ jsonQuote r.href])) ++ "\x7d\n"

/-- Process exit status of a run (authenticate.go: `os.Exit(1)` on every
failure, falling off `main` — status 0 — on success). -/
def runExit (w : World) (mac : List Nat → List Nat → List Nat)
    (args : List String) (now : Int) : Nat :=
  match (mainRun w mac args now).1 with
  | .ok _ => 0
  | .error _ => 1

/-- Payload written to standard output: the encoded response on success
(authenticate.go line 162, the only write to stdout), nothing on failure. -/
def runStdout (w : World) (mac : List Nat → List Nat → List Nat)
    (args : List String) (now : Int) : Option String :=
  match (mainRun w mac args now).1 with
  | .ok r => some (encodeResponse r)
  | .error _ => none

/-- Diagnostic written to standard error: present exactly on failure. -/
def runStderr (w : World) (mac : List Nat → List Nat → List Nat)
    (args : List String) (now : Int) : Option String :=
  match (mainRun w mac args now).1 with
  | .ok _ => none
  | .error e => some (errMsg e)

/-- A string contains no newline character. -/
def noNl (s : String) : Bool := !(s.data.contains '\n')

/-- A diagnostic is one line: it ends in a newline and contains no other. -/
def isOneLine (s : String) : Bool :=
  match s.data.reverse with
  | c :: rest => c == '\n' && !(rest.contains '\n')
  | [] => false

/-- The world-supplied strings embedded in a failure's diagnostic are free of
newlines (operating-system error texts never contain them). -/
def errClean : ErrClass → Bool
  | .configOpen m => noNl m
  | .configDecode m => noNl m
  | .authority m => noNl m
  | _ => true

/-- Is this the invalid-operation failure class? -/
def isInvalidOpE : ErrClass → Bool
  | .invalidOperation _ => true
  | _ => false

/-- Induction on byte lists following the three-byte grouping of base64. -/
def threeStepInd {motive : List Nat → Prop}
    (h0 : motive []) (h1 : ∀ a, motive [a]) (h2 : ∀ a b, motive [a, b])
    (h3 : ∀ a b c rest, motive rest → motive (a :: b :: c :: rest)) :
    ∀ l, motive l
  | [] => h0
  | [a] => h1 a
  | [a, b] => h2 a b
  | a :: b :: c :: rest => h3 a b c rest (threeStepInd h0 h1 h2 h3 rest)

/-- A trivial MAC stand-in used to instantiate witnesses (the theorems hold
for every MAC function). -/
def macZero : List Nat → List Nat → List Nat := fun _ _ => []

/-- A concrete test configuration: empty (valid base64) secret, one href. -/
def cfgTest : Config := ⟨"", "http://example.com/lfs"⟩

/-- Test world: gitolite resolvable, every access query exits with status `k`. -/
def wGitolite (k : Nat) : World :=
  ⟨some (fun _ _ _ => .exited k), false, "", fun _ => .error "no perl", "alice",
    .loaded cfgTest⟩

/-- Test world: gitolite missing, perl fallback returns output whose first
white-space character is a tab (first space byte comes later). -/
def wPerlTab : World :=
  ⟨none, true, "bin", fun _ => .ok "R\tW x", "alice", .loaded cfgTest⟩

/-- Test world: neither gitolite nor perl available. -/
def wNone : World :=
  ⟨none, false, "", fun _ => .error "no perl", "alice", .loaded cfgTest⟩

/-- Test world: gitolite run fails to start (not an exit error). -/
def wStartFail : World :=
  ⟨some (fun _ _ _ => .failed "fork failed"), false, "", fun _ => .error "no perl",
    "alice", .loaded cfgTest⟩

/-- Test argument vector (program name, repository, operation). -/
def argsDL : List String := ["git-lfs-authenticate", "team/app.git", "download"]

/-- Modelled from the spec (the wording of claim C7): the first
*whitespace*-delimited token of the fallback authority's output, i.e. the
prefix before the first white-space character; `none` when the output
contains no white space.  This follows the claim's words and is compared
against the source's behaviour, which splits at the first space *byte*. -/
def specFirstWsToken (out : String) : Option String :=
  match out.data.findIdx? goIsSpace with
  | none => none
  | some i => some (String.mk (out.data.take i))

theorem utf8Bytes_lt256 (c : Char) : ∀ b ∈ utf8Bytes c, b < 256 := by
  intro b hb
  have hv : c.toNat < 1114112 := by
    rcases c.valid with h | h
    · exact lt_trans h (by norm_num)
    · exact h.2
  simp only [utf8Bytes] at hb
  split_ifs at hb with h1 h2 h3 <;> simp at hb <;> omega

theorem utf8Bytes_ascii (c : Char) (h : c.toNat < 128) : utf8Bytes c = [c.toNat] := by
  unfold utf8Bytes
  rw [if_pos (by omega)]

theorem bytesOf_append (a b : List Char) : bytesOf (a ++ b) = bytesOf a ++ bytesOf b := by
  induction a with
  | nil => simp [bytesOf]
  | cons c t ih => simp [bytesOf, ih]

theorem bytesOf_lt256 (l : List Char) : ∀ b ∈ bytesOf l, b < 256 := by
  induction l with
  | nil => simp [bytesOf]
  | cons c t ih =>
    intro b hb
    simp only [bytesOf, List.mem_append] at hb
    rcases hb with hb | hb
    · exact utf8Bytes_lt256 c b hb
    · exact ih b hb

theorem bytesOf_ascii (l : List Char) (h : ∀ c ∈ l, c.toNat < 128) :
    bytesOf l = l.map Char.toNat := by
  induction l with
  | nil => rfl
  | cons c t ih =>
    simp only [bytesOf, List.map_cons]
    rw [utf8Bytes_ascii c (h c (by simp)), ih (fun x hx => h x (by simp [hx]))]
    rfl

theorem b64Char_ne_dot (n : Nat) : b64Char n ≠ '.' := by
  have hm : n % 64 < 64 := Nat.mod_lt _ (by omega)
  have haux : ∀ m, m < 64 → urlAlphaChars.getD m 'A' ≠ '.' := by decide
  exact haux (n % 64) hm

theorem b64Val_b64Char : ∀ n, n < 64 → b64Val (b64Char n) = n := by decide

theorem b64EncodeBytes_ne_dot (l : List Nat) : ∀ x ∈ b64EncodeBytes l, x ≠ '.' := by
  induction l using threeStepInd with
  | h0 => simp [b64EncodeBytes]
  | h1 a =>
    intro x hx
    simp only [b64EncodeBytes, List.mem_cons, List.not_mem_nil, or_false] at hx
    rcases hx with h | h <;> (subst h; exact b64Char_ne_dot _)
  | h2 a b =>
    intro x hx
    simp only [b64EncodeBytes, List.mem_cons, List.not_mem_nil, or_false] at hx
    rcases hx with h | h | h <;> (subst h; exact b64Char_ne_dot _)
  | h3 a b c rest ih =>
    intro x hx
    simp only [b64EncodeBytes, List.mem_cons] at hx
    rcases hx with h | h | h | h | h
    · subst h; exact b64Char_ne_dot _
    · subst h; exact b64Char_ne_dot _
    · subst h; exact b64Char_ne_dot _
    · subst h; exact b64Char_ne_dot _
    · exact ih x h

theorem b64_roundtrip : ∀ l : List Nat, (∀ b ∈ l, b < 256) →
    b64DecodeBytes (b64EncodeBytes l) = some l := by
  refine threeStepInd ?_ ?_ ?_ ?_
  · intro _; rfl
  · intro a hb
    have ha : a < 256 := hb a (by simp)
    simp only [b64EncodeBytes, b64DecodeBytes]
    rw [b64Val_b64Char _ (by omega), b64Val_b64Char _ (by omega), if_pos (by omega)]
    simp only [Option.some.injEq, List.cons.injEq, and_true]
    omega
  · intro a b hb
    have ha : a < 256 := hb a (by simp)
    have hb2 : b < 256 := hb b (by simp)
    simp only [b64EncodeBytes, b64DecodeBytes]
    rw [b64Val_b64Char _ (by omega), b64Val_b64Char _ (by omega),
      b64Val_b64Char _ (by omega), if_pos (by omega)]
    simp only [Option.some.injEq, List.cons.injEq, and_true]
    omega
  · intro a b c rest ih hb
    have ha : a < 256 := hb a (by simp)
    have hb2 : b < 256 := hb b (by simp)
    have hc : c < 256 := hb c (by simp)
    simp only [b64EncodeBytes, b64DecodeBytes]
    rw [b64Val_b64Char _ (by omega), b64Val_b64Char _ (by omega),
      b64Val_b64Char _ (by omega), b64Val_b64Char _ (by omega), if_pos (by omega)]
    rw [ih (fun x hx => hb x (by simp [hx]))]
    simp only [Option.map_some', Option.some.injEq, List.cons.injEq]
    exact ⟨by omega, by omega, by omega, trivial⟩

theorem data_append (a b : String) : (a ++ b).data = a.data ++ b.data := rfl

theorem expOf_eq (t : Int) : expOf t = unixSec t + 300 :=
  Int.add_mul_ediv_right t 300 (by norm_num)

theorem splitGo_no_dot (a : List Char) (h : ∀ x ∈ a, x ≠ '.') (acc : List Char) :
    splitGo a acc = [acc.reverse ++ a] := by
  induction a generalizing acc with
  | nil => simp [splitGo]
  | cons c t ih =>
    simp only [splitGo, if_neg (h c (by simp))]
    rw [ih (fun x hx => h x (by simp [hx]))]
    simp

theorem splitGo_dot (a : List Char) (h : ∀ x ∈ a, x ≠ '.') (acc rest : List Char) :
    splitGo (a ++ '.' :: rest) acc = (acc.reverse ++ a) :: splitGo rest [] := by
  induction a generalizing acc with
  | nil => simp [splitGo]
  | cons c t ih =>
    simp only [List.cons_append, splitGo, if_neg (h c (by simp)), List.append_eq]
    rw [ih (fun x hx => h x (by simp [hx]))]
    simp

theorem splitDots_three (a b c : List Char) (ha : ∀ x ∈ a, x ≠ '.')
    (hb : ∀ x ∈ b, x ≠ '.') (hc : ∀ x ∈ c, x ≠ '.') :
    splitDots (a ++ '.' :: (b ++ '.' :: c)) = [a, b, c] := by
  unfold splitDots
  rw [splitGo_dot a ha [] (b ++ '.' :: c), splitGo_dot b hb [] c, splitGo_no_dot c hc []]
  simp

theorem natDecGo_lt (n : Nat) (acc : List Char) (h : n < 10) :
    natDecGo n acc = digitChar n :: acc := by
  rw [natDecGo, if_pos h]

theorem natDecGo_ge (n : Nat) (acc : List Char) (h : ¬ n < 10) :
    natDecGo n acc = natDecGo (n / 10) (digitChar (n % 10) :: acc) := by
  conv_lhs => rw [natDecGo]
  rw [if_neg h]

theorem numDigits_lt (n : Nat) (h : n < 10) : numDigits n = 1 := by
  rw [numDigits, if_pos h]

theorem numDigits_ge (n : Nat) (h : ¬ n < 10) : numDigits n = numDigits (n / 10) + 1 := by
  conv_lhs => rw [numDigits]
  rw [if_neg h]

theorem natDecGo_acc (n : Nat) : ∀ acc, natDecGo n acc = natDecGo n [] ++ acc := by
  induction n using Nat.strong_induction_on with
  | _ n ih =>
    intro acc
    by_cases h : n < 10
    · rw [natDecGo_lt n acc h, natDecGo_lt n [] h]
      rfl
    · have hlt : n / 10 < n := Nat.div_lt_self (by omega) (by omega)
      rw [natDecGo_ge n acc h, natDecGo_ge n [] h,
        ih (n / 10) hlt (digitChar (n % 10) :: acc), ih (n / 10) hlt [digitChar (n % 10)]]
      simp

theorem digitChar_toNat : ∀ n, n < 10 → (digitChar n).toNat = 48 + n := by decide

theorem natDec_chars (n : Nat) : ∀ c ∈ natDec n, ∃ d, d < 10 ∧ c = digitChar d := by
  unfold natDec
  induction n using Nat.strong_induction_on with
  | _ n ih =>
    by_cases h : n < 10
    · rw [natDecGo_lt n [] h]
      intro c hc
      simp at hc
      exact ⟨n, h, hc⟩
    · have hlt : n / 10 < n := Nat.div_lt_self (by omega) (by omega)
      rw [natDecGo_ge n [] h, natDecGo_acc (n / 10) [digitChar (n % 10)]]
      intro c hc
      rcases List.mem_append.mp hc with hm | hm
      · exact ih (n / 10) hlt c hm
      · simp at hm
        exact ⟨n % 10, by omega, hm⟩

theorem natDec_head (n : Nat) : ∃ d tl, d < 10 ∧ natDec n = digitChar d :: tl := by
  unfold natDec
  induction n using Nat.strong_induction_on with
  | _ n ih =>
    by_cases h : n < 10
    · exact ⟨n, [], h, natDecGo_lt n [] h⟩
    · have hlt : n / 10 < n := Nat.div_lt_self (by omega) (by omega)
      obtain ⟨d, tl, hd, he⟩ := ih (n / 10) hlt
      refine ⟨d, tl ++ [digitChar (n % 10)], hd, ?_⟩
      rw [natDecGo_ge n [] h, natDecGo_acc (n / 10) [digitChar (n % 10)], he]
      rfl

theorem digitsVal_dec (n : Nat) : ∀ a rest,
    digitsVal ((natDec n).map Char.toNat ++ rest) a =
      digitsVal rest (a * 10 ^ numDigits n + n) := by
  unfold natDec
  induction n using Nat.strong_induction_on with
  | _ n ih =>
    intro a rest
    by_cases h : n < 10
    · rw [natDecGo_lt n [] h]
      simp only [List.map_cons, List.map_nil, List.nil_append, List.cons_append,
        List.nil_append, digitsVal]
      rw [digitChar_toNat n h, if_neg (by omega), if_pos (by omega),
        numDigits_lt n h, pow_one]
      congr 1
      omega
    · have hlt : n / 10 < n := Nat.div_lt_self (by omega) (by omega)
      rw [natDecGo_ge n [] h, natDecGo_acc (n / 10) [digitChar (n % 10)],
        List.map_append, List.append_assoc]
      rw [ih (n / 10) hlt a ((([digitChar (n % 10)]).map Char.toNat) ++ rest)]
      simp only [List.map_cons, List.map_nil, List.cons_append, List.nil_append, digitsVal]
      rw [digitChar_toNat (n % 10) (by omega), if_neg (by omega), if_pos (by omega),
        numDigits_ge n h, pow_succ]
      congr 1
      have e2 : 10 * (n / 10) + n % 10 = n := by omega
      calc 10 * (a * 10 ^ numDigits (n / 10) + n / 10) + (48 + n % 10 - 48)
          = a * (10 ^ numDigits (n / 10) * 10) + (10 * (n / 10) + n % 10) := by ring_nf; omega
        _ = a * (10 ^ numDigits (n / 10) * 10) + n := by rw [e2]

theorem parseNatB_dec (n : Nat) (rest : List Nat) :
    parseNatB ((natDec n).map Char.toNat ++ 44 :: rest) = some n := by
  have hv := digitsVal_dec n 0 (44 :: rest)
  obtain ⟨d, tl, hd, he⟩ := natDec_head n
  rw [he] at hv ⊢
  simp only [List.map_cons, List.cons_append] at hv ⊢
  simp only [parseNatB]
  rw [if_pos (by rw [digitChar_toNat d hd]; omega)]
  rw [hv]
  simp [digitsVal]

theorem parseIntB_dec (e : Int) (rest : List Nat) :
    parseIntB ((intToDec e).map Char.toNat ++ 44 :: rest) = some e := by
  by_cases he : e < 0
  · have hstep45 : ∀ X : List Nat,
        parseIntB (45 :: X) = (parseNatB X).map (fun n : Nat => -(n : Int)) :=
      fun _ => rfl
    have h45 : ('-').toNat = 45 := rfl
    simp only [intToDec, if_pos he, List.map_cons, List.cons_append, h45]
    rw [hstep45, parseNatB_dec]
    simp only [Option.map_some', Option.some.injEq]
    omega
  · obtain ⟨d, tl, hd, hhe⟩ := natDec_head e.toNat
    have hne : (digitChar d).toNat ≠ 45 := by rw [digitChar_toNat d hd]; omega
    simp only [intToDec, if_neg he]
    rw [hhe]
    simp only [List.map_cons, List.cons_append]
    rw [show parseIntB ((digitChar d).toNat :: (tl.map Char.toNat ++ 44 :: rest)) =
        (parseNatB ((digitChar d).toNat :: (tl.map Char.toNat ++ 44 :: rest))).map
          (fun n : Nat => (n : Int)) from by
      unfold parseIntB
      exact if_neg hne]
    rw [← List.cons_append, ← List.map_cons, ← hhe, parseNatB_dec]
    simp only [Option.map_some', Option.some.injEq]
    omega

theorem digitChar_ascii : ∀ d, d < 10 → (digitChar d).toNat < 128 := by decide

theorem intToDec_ascii (e : Int) : ∀ c ∈ intToDec e, c.toNat < 128 := by
  intro c hc
  unfold intToDec at hc
  split_ifs at hc with h
  · rcases List.mem_cons.mp hc with h1 | h1
    · subst h1; decide
    · obtain ⟨d, hd, he⟩ := natDec_chars _ c h1
      subst he
      exact digitChar_ascii d hd
  · obtain ⟨d, hd, he⟩ := natDec_chars _ c hc
    subst he
    exact digitChar_ascii d hd

theorem parseExp_payload (u r o : String) (e : Int) :
    parseExpBytes (strBytes (payloadJson u r o e)) = some e := by
  have hstep : ∀ X : List Nat,
      parseExpBytes (123 :: 34 :: 101 :: 120 :: 112 :: 34 :: 58 :: X) = parseIntB X :=
    fun _ => rfl
  have hpre : bytesOf ("\x7b\"exp\":").data = [123, 34, 101, 120, 112, 34, 58] := by decide
  have hmid : ∀ s : String, bytesOf (("," ++ s).data) = 44 :: bytesOf s.data := by
    intro s
    rw [data_append, bytesOf_append]
    rfl
  unfold payloadJson strBytes
  rw [show ("\x7b\"exp\":" ++ String.mk (intToDec e) ++ ",\"op\":" ++ jsonQuote o ++
      ",\"repo\":" ++ jsonQuote r ++ ",\"user\":" ++ jsonQuote u ++ "\x7d") =
      ("\x7b\"exp\":" ++ (String.mk (intToDec e) ++ ("," ++ ("\"op\":" ++ jsonQuote o ++
      ",\"repo\":" ++ jsonQuote r ++ ",\"user\":" ++ jsonQuote u ++ "\x7d")))) from by
    simp [String.ext_iff, data_append, List.append_assoc]]
  rw [data_append, bytesOf_append, hpre, data_append, bytesOf_append, hmid]
  rw [show (String.mk (intToDec e)).data = intToDec e from rfl]
  rw [bytesOf_ascii (intToDec e) (intToDec_ascii e)]
  simp only [List.cons_append, List.nil_append]
  rw [hstep, parseIntB_dec]

theorem headerB64Chars_ne_dot : ∀ x ∈ headerB64Chars, x ≠ '.' := by
  unfold headerB64Chars
  exact b64EncodeBytes_ne_dot _

theorem issueToken_data (mac : List Nat → List Nat → List Nat) (secret : List Nat)
    (u r o : String) (t : Int) :
    (issueToken mac secret u r o t).data =
      headerB64Chars ++ '.' :: (b64EncodeBytes (strBytes (payloadJson u r o (expOf t))) ++
        '.' :: b64EncodeBytes (mac secret (bytesOf (headerB64Chars ++ '.' ::
          b64EncodeBytes (strBytes (payloadJson u r o (expOf t))))))) := by
  unfold issueToken
  simp [List.append_assoc]

theorem expOfToken_issue (mac : List Nat → List Nat → List Nat) (secret : List Nat)
    (u r o : String) (t : Int) :
    expOfToken (issueToken mac secret u r o t) = some (expOf t) := by
  have hp : ∀ x ∈ b64EncodeBytes (strBytes (payloadJson u r o (expOf t))), x ≠ '.' :=
    b64EncodeBytes_ne_dot _
  have hs : ∀ x ∈ b64EncodeBytes (mac secret (bytesOf (headerB64Chars ++ '.' ::
      b64EncodeBytes (strBytes (payloadJson u r o (expOf t)))))), x ≠ '.' :=
    b64EncodeBytes_ne_dot _
  unfold expOfToken
  rw [issueToken_data, splitDots_three _ _ _ headerB64Chars_ne_dot hp hs]
  show (b64DecodeBytes (b64EncodeBytes (strBytes (payloadJson u r o (expOf t))))).bind
    parseExpBytes = some (expOf t)
  rw [b64_roundtrip (strBytes (payloadJson u r o (expOf t)))
    (by unfold strBytes; exact bytesOf_lt256 _)]
  rw [Option.some_bind]
  exact parseExp_payload u r o (expOf t)

theorem verifyToken_issue (mac : List Nat → List Nat → List Nat) (secret : List Nat)
    (u r o : String) (t tc : Int) (h : tc ≤ expOf t) :
    verifyToken mac secret (issueToken mac secret u r o t) tc = true := by
  have hp : ∀ x ∈ b64EncodeBytes (strBytes (payloadJson u r o (expOf t))), x ≠ '.' :=
    b64EncodeBytes_ne_dot _
  have hs : ∀ x ∈ b64EncodeBytes (mac secret (bytesOf (headerB64Chars ++ '.' ::
      b64EncodeBytes (strBytes (payloadJson u r o (expOf t)))))), x ≠ '.' :=
    b64EncodeBytes_ne_dot _
  unfold verifyToken
  rw [expOfToken_issue, issueToken_data, splitDots_three _ _ _ headerB64Chars_ne_dot hp hs]
  simp [h]

theorem stripGitSuffix_ne (s : String) (h : (".git").data.isSuffixOf s.data = true) :
    stripGitSuffix s ≠ s := by
  have hsuf : (".git").data <:+ s.data := by
    simp only [List.isSuffixOf_iff_suffix] at h
    exact h
  obtain ⟨t, ht⟩ := hsuf
  have hlen : s.data.length = t.length + 4 := by
    rw [← ht, List.length_append]
    rfl
  intro heq
  unfold stripGitSuffix at heq
  rw [if_pos h] at heq
  have hd := congrArg String.data heq
  have hl := congrArg List.length hd
  simp only [List.length_take] at hl
  omega

theorem noNl_iff (s : String) : noNl s = true ↔ '\n' ∉ s.data := by
  simp [noNl, List.elem_eq_mem]

theorem hexLower_ne_nl (n : Nat) : hexLower n ≠ '\n' := by
  have hm : n % 16 < 16 := Nat.mod_lt _ (by omega)
  have haux : ∀ m, m < 16 → ("0123456789abcdef").data.getD m '0' ≠ '\n' := by decide
  exact haux (n % 16) hm

set_option maxHeartbeats 1000000 in
theorem escChar_ne_nl (c : Char) : ∀ x ∈ escChar c, x ≠ '\n' := by
  intro x hx hxe
  subst hxe
  unfold escChar at hx
  split_ifs at hx with h1 h2 h3 h4 h5 h6 h7 h8 h9 h10 <;> simp_all
  · rcases hx with hx | hx
    · exact hexLower_ne_nl _ hx.symm
    · exact hexLower_ne_nl _ hx.symm
  · exact h6 hx.symm

theorem goQuote_noNl (s : String) : noNl (goQuote s) = true := by
  rw [noNl_iff]
  unfold goQuote
  rw [data_append, data_append]
  intro hm
  rcases List.mem_append.mp hm with hm2 | hm2
  · rcases List.mem_append.mp hm2 with hm3 | hm3
    · simp at hm3
    · rw [show (String.mk (s.data.flatMap escChar)).data = s.data.flatMap escChar from rfl]
        at hm3
      obtain ⟨c, _, hin⟩ := List.mem_flatMap.mp hm3
      exact escChar_ne_nl c '\n' hin rfl
  · simp at hm2

theorem isOneLine_append_nl (s : String) (h : '\n' ∉ s.data) :
    isOneLine (s ++ "\n") = true := by
  unfold isOneLine
  rw [data_append]
  rw [show ("\n").data = ['\n'] from rfl]
  rw [List.reverse_append, List.reverse_singleton, List.singleton_append]
  simp [List.elem_eq_mem, List.mem_reverse, h]

theorem isOneLine_wrap (pre m : String) (hpre : noNl pre = true) (hm : noNl m = true) :
    isOneLine (pre ++ m ++ "\n") = true := by
  apply isOneLine_append_nl
  rw [data_append]
  rw [noNl_iff] at hpre hm
  intro hmem
  rcases List.mem_append.mp hmem with h2 | h2
  · exact hpre h2
  · exact hm h2

theorem checkAccessT_noacl (w : World) (hg : w.gitolite = none)
    (hfb : w.perl = false ∨ goTrim w.glBindir = "") (repo user perm : String) :
    checkAccessT w repo user perm =
      (.error "failed to check ACL (no gitolite command or GL_BINDDIR)", []) := by
  unfold checkAccessT
  rw [hg]
  rcases hfb with hb | hb <;> simp [hb]

theorem mainRun_reach_access (w : World) (mac : List Nat → List Nat → List Nat)
    (a0 a1 a2 : String) (now : Int) (cfg : Config) (secret : List Nat)
    (hcfg : w.config = ConfigLoad.loaded cfg)
    (hsec : stdB64Decode cfg.secret = some secret)
    (hrepo : goTrim a1 ≠ "")
    (hop : goTrim a2 = "upload" ∨ goTrim a2 = "download")
    (huser : goTrim w.glUser ≠ "") :
    mainRun w mac [a0, a1, a2] now =
      (match checkAccessT w (goTrim a1) (goTrim w.glUser)
          (if goTrim a2 = "upload" then "W" else "R") with
       | (.error m, qs) => (.error (.authority m), qs)
       | (.ok false, qs) => (.error .denied, qs)
       | (.ok true, qs) =>
         (.ok ⟨[("Authorization", "Bearer " ++ issueToken mac secret (goTrim w.glUser)
             (goTrim a1) (goTrim a2) now)], cfg.href⟩, qs)) := by
  rcases hop with hop | hop <;>
    simp [mainRun, hcfg, hsec, hrepo, hop, huser]

theorem checkAccessT_gitolite (w : World) (run : String → String → String → ProcResult)
    (hg : w.gitolite = some run) (repo user perm : String) :
    checkAccessT w repo user perm =
      (match run (stripGitSuffix repo) user perm with
       | .exited 0 => (.ok true, [.gitolite (stripGitSuffix repo) user perm])
       | .exited _ => (.ok false, [.gitolite (stripGitSuffix repo) user perm])
       | .failed m => (.error m, [.gitolite (stripGitSuffix repo) user perm])) := by
  unfold checkAccessT
  rw [hg]

/-- C1 (amended): when the primary authority binary is resolvable,
`checkAccess` returns allow exactly when the `gitolite access -q` subprocess
exits with status 0, returns an explicit deny for *every* non-zero exit
status (there is no distinguished non-zero "denied" class), and returns an
operational error exactly when the subprocess could not be run at all. -/
theorem claimC1_primary_exit_classes (w : World)
    (run : String → String → String → ProcResult) (repo user perm : String)
    (hg : w.gitolite = some run) :
    ((checkAccessT w repo user perm).1 = .ok true ↔
      run (stripGitSuffix repo) user perm = .exited 0) ∧
    ((checkAccessT w repo user perm).1 = .ok false ↔
      ∃ n, run (stripGitSuffix repo) user perm = .exited (n + 1)) ∧
    (∀ m, (checkAccessT w repo user perm).1 = .error m ↔
      run (stripGitSuffix repo) user perm = .failed m) := by
  rw [checkAccessT_gitolite w run hg repo user perm]
  cases hr : run (stripGitSuffix repo) user perm with
  | exited k =>
    cases k with
    | zero => simp
    | succ n =>
      refine ⟨by simp, ?_, by simp⟩
      simp only [ProcResult.exited.injEq]
      constructor
      · intro _
        exact ⟨n, rfl⟩
      · intro _
        trivial
  | failed m => simp

/-- C1 counterexample: the claim as stated requires an operational error for
every non-zero exit status outside one designated "denied" class; the code
instead maps both exit status 1 and exit status 2 (and every other non-zero
status) to an explicit deny `(false, nil)`, never to an operational error. -/
theorem claimC1_counterexample :
    (checkAccessT (wGitolite 1) "repo" "alice" "R").1 = .ok false ∧
    (checkAccessT (wGitolite 2) "repo" "alice" "R").1 = .ok false :=
  ⟨rfl, rfl⟩

theorem claimC1_primary_exit_classes_witness :
    (wGitolite 0).gitolite = some (fun _ _ _ => ProcResult.exited 0) ∧
    (checkAccessT (wGitolite 0) "repo" "alice" "R").1 = .ok true :=
  ⟨rfl, ((claimC1_primary_exit_classes (wGitolite 0) (fun _ _ _ => ProcResult.exited 0)
    "repo" "alice" "R" rfl).1).mpr rfl⟩

/-- C6: if the gitolite binary is not resolvable and the fallback is missing
(no perl, or blank `GL_BINDIR`), `checkAccess` returns the fixed
configuration error (spawning nothing), and the handler reports the
authority diagnostic — a failure class distinct from access-denied. -/
theorem claimC6_unavailable_not_denied (w : World)
    (mac : List Nat → List Nat → List Nat) (a0 a1 a2 : String) (now : Int)
    (cfg : Config) (secret : List Nat)
    (hg : w.gitolite = none) (hfb : w.perl = false ∨ goTrim w.glBindir = "")
    (hcfg : w.config = ConfigLoad.loaded cfg)
    (hsec : stdB64Decode cfg.secret = some secret)
    (hrepo : goTrim a1 ≠ "")
    (hop : goTrim a2 = "upload" ∨ goTrim a2 = "download")
    (huser : goTrim w.glUser ≠ "") :
    (∀ repo user perm, checkAccessT w repo user perm =
      (.error "failed to check ACL (no gitolite command or GL_BINDDIR)", [])) ∧
    (mainRun w mac [a0, a1, a2] now).1 =
      .error (.authority "failed to check ACL (no gitolite command or GL_BINDDIR)") ∧
    (mainRun w mac [a0, a1, a2] now).1 ≠ .error .denied := by
  have hca := checkAccessT_noacl w hg hfb
  refine ⟨hca, ?_, ?_⟩
  · rw [mainRun_reach_access w mac a0 a1 a2 now cfg secret hcfg hsec hrepo hop huser, hca]
  · rw [mainRun_reach_access w mac a0 a1 a2 now cfg secret hcfg hsec hrepo hop huser, hca]
    simp

theorem claimC6_unavailable_not_denied_witness :
    wNone.gitolite = none ∧ wNone.perl = false ∧
    (mainRun wNone macZero ["git-lfs-authenticate", "team/app.git", "download"] 0).1 =
      .error (.authority "failed to check ACL (no gitolite command or GL_BINDDIR)") :=
  ⟨rfl, rfl,
    (claimC6_unavailable_not_denied wNone macZero "git-lfs-authenticate" "team/app.git"
      "download" 0 cfgTest [] rfl (Or.inl rfl) rfl rfl (by decide)
      (Or.inr (by decide)) (by decide)).2.1⟩

/-- C7 (amended): on the fallback path the code takes the output bytes
before the first *space byte* (not general white space) as the
permission-set string; allow is substring membership of the permission in
that prefix, and output containing no space byte is surfaced as an error,
not as a deny. -/
theorem claimC7_fallback_space_parse (w : World) (repo user perm out : String)
    (hg : w.gitolite = none) (hp : w.perl = true) (hb : goTrim w.glBindir ≠ "")
    (ho : w.perlRun (stripGitSuffix repo) = .ok out) :
    (out.data.findIdx? (fun c => c == ' ') = none →
      (checkAccessT w repo user perm).1 = .error "invalid output from cli_repo_rights") ∧
    (∀ i, out.data.findIdx? (fun c => c == ' ') = some i →
      (checkAccessT w repo user perm).1 = .ok (listContainsSub (out.data.take i) perm.data)) := by
  unfold checkAccessT
  rw [hg]
  constructor
  · intro hnone
    simp [hp, hb, ho, hnone]
  · intro i hi
    simp [hp, hb, ho, hi]

/-- C7 counterexample: with fallback output `"R\tW x"` and permission `"W"`,
the code allows — the prefix before the first space byte is `"R\tW"`, which
contains `"W"` — while the claim's first whitespace-delimited token is `"R"`,
which does not contain `"W"`, so the claim predicts a deny. -/
theorem claimC7_counterexample :
    (checkAccessT wPerlTab "repo" "alice" "W").1 = .ok true ∧
    specFirstWsToken "R\tW x" = some "R" ∧
    listContainsSub ("R").data ("W").data = false :=
  ⟨rfl, rfl, rfl⟩

theorem claimC7_fallback_space_parse_witness :
    wPerlTab.gitolite = none ∧ wPerlTab.perl = true ∧
    ("R\tW x").data.findIdx? (fun c => c == ' ') = some 3 ∧
    (checkAccessT wPerlTab "repo" "alice" "W").1 =
      .ok (listContainsSub (("R\tW x").data.take 3) ("W").data) :=
  ⟨rfl, rfl, by decide,
    (claimC7_fallback_space_parse wPerlTab "repo" "alice" "W" "R\tW x" rfl rfl
      (by decide) rfl).2 3 (by decide)⟩

/-- C2: for every issued credential the claim map carries exactly the
identity (`user`), the resource (`repo`), the operation (`op`) and the
expiry (`exp`), nothing else; the expiry equals the issuance instant's Unix
time plus exactly 300 seconds, and decoding the issued token's payload
recovers exactly that expiry. -/
theorem claimC2_token_claims (mac : List Nat → List Nat → List Nat)
    (secret : List Nat) (u r o : String) (t : Int) :
    List.lookup "exp" (makeClaims u r o t) = some (.int (unixSec t + 300)) ∧
    List.lookup "user" (makeClaims u r o t) = some (.str u) ∧
    List.lookup "repo" (makeClaims u r o t) = some (.str r) ∧
    List.lookup "op" (makeClaims u r o t) = some (.str o) ∧
    (makeClaims u r o t).map Prod.fst = ["user", "repo", "op", "exp"] ∧
    expOfToken (issueToken mac secret u r o t) = some (unixSec t + 300) := by
  refine ⟨?_, ?_, ?_, ?_, rfl, ?_⟩
  · simp [makeClaims, List.lookup, expOf_eq]
  · simp [makeClaims, List.lookup]
  · simp [makeClaims, List.lookup]
  · simp [makeClaims, List.lookup]
  · rw [expOfToken_issue mac secret u r o t, expOf_eq]

/-- C9: with a fixed secret and fixed (identity, resource, operation), two
issuances at instants with different expiry timestamps produce different
credential strings, and each credential verifies against the same secret at
any check time within its own (not yet expired) window. -/
theorem claimC9_distinct_and_valid (mac : List Nat → List Nat → List Nat)
    (secret : List Nat) (u r o : String) (t1 t2 tc1 tc2 : Int)
    (hne : unixSec t1 ≠ unixSec t2)
    (h1 : tc1 ≤ unixSec t1 + 300) (h2 : tc2 ≤ unixSec t2 + 300) :
    issueToken mac secret u r o t1 ≠ issueToken mac secret u r o t2 ∧
    verifyToken mac secret (issueToken mac secret u r o t1) tc1 = true ∧
    verifyToken mac secret (issueToken mac secret u r o t2) tc2 = true := by
  refine ⟨?_, ?_, ?_⟩
  · intro heq
    have h3 := expOfToken_issue mac secret u r o t1
    rw [heq, expOfToken_issue mac secret u r o t2] at h3
    have h4 := Option.some.inj h3
    rw [expOf_eq, expOf_eq] at h4
    omega
  · exact verifyToken_issue mac secret u r o t1 tc1 (by rw [expOf_eq]; exact h1)
  · exact verifyToken_issue mac secret u r o t2 tc2 (by rw [expOf_eq]; exact h2)

theorem claimC9_distinct_and_valid_witness :
    unixSec 0 ≠ unixSec 1000000000 ∧
    (0 : Int) ≤ unixSec 0 + 300 ∧ (0 : Int) ≤ unixSec 1000000000 + 300 ∧
    issueToken macZero [] "alice" "team/app" "download" 0 ≠
      issueToken macZero [] "alice" "team/app" "download" 1000000000 ∧
    verifyToken macZero []
      (issueToken macZero [] "alice" "team/app" "download" 0) 0 = true := by
  have h := claimC9_distinct_and_valid macZero [] "alice" "team/app" "download"
    0 1000000000 0 0 (by decide) (by decide) (by decide)
  exact ⟨by decide, by decide, by decide, h.1, h.2.1⟩

/-- C3 (amended): the secret-loading step fails exactly when the configured
secret is not valid base64; an *empty* decoded secret is not rejected — the
pipeline continues and, when the authority allows, a credential signed with
the empty secret is issued. -/
theorem claimC3_secret_decode (w : World) (mac : List Nat → List Nat → List Nat)
    (a0 a1 a2 : String) (now : Int) (cfg : Config)
    (hcfg : w.config = ConfigLoad.loaded cfg) :
    (stdB64Decode cfg.secret = none →
      (mainRun w mac [a0, a1, a2] now).1 = .error .secretDecode) ∧
    (stdB64Decode cfg.secret = some [] →
      goTrim a1 ≠ "" →
      (goTrim a2 = "upload" ∨ goTrim a2 = "download") →
      goTrim w.glUser ≠ "" →
      ∀ run, w.gitolite = some run →
      run (stripGitSuffix (goTrim a1)) (goTrim w.glUser)
        (if goTrim a2 = "upload" then "W" else "R") = .exited 0 →
      (mainRun w mac [a0, a1, a2] now).1 =
        .ok ⟨[("Authorization", "Bearer " ++ issueToken mac [] (goTrim w.glUser)
          (goTrim a1) (goTrim a2) now)], cfg.href⟩) := by
  constructor
  · intro hnone
    simp [mainRun, hcfg, hnone]
  · intro hsec hrepo hop huser run hg hallow
    rw [mainRun_reach_access w mac a0 a1 a2 now cfg [] hcfg hsec hrepo hop huser]
    rw [checkAccessT_gitolite w run hg, hallow]

/-- C3 counterexample: the configuration `cfgTest` has the empty string as
its secret, which decodes (valid base64) to the empty byte sequence; the
handler does not fail — the run succeeds and emits a credential. -/
theorem claimC3_counterexample :
    cfgTest.secret = "" ∧ stdB64Decode cfgTest.secret = some [] ∧
    ((mainRun (wGitolite 0) macZero argsDL 0).1).isOk = true :=
  ⟨rfl, rfl, by decide⟩

theorem claimC3_secret_decode_witness :
    stdB64Decode ("%%%") = none ∧
    (mainRun ⟨none, false, "", fun _ => Except.error "no perl", "alice",
        ConfigLoad.loaded ⟨"%%%", "h"⟩⟩ macZero
      ["git-lfs-authenticate", "repo", "download"] 0).1 = .error .secretDecode :=
  ⟨by decide,
    (claimC3_secret_decode ⟨none, false, "", fun _ => Except.error "no perl", "alice",
        ConfigLoad.loaded ⟨"%%%", "h"⟩⟩ macZero
      "git-lfs-authenticate" "repo" "download" 0 ⟨"%%%", "h"⟩ rfl).1 (by decide)⟩

/-- C4: whenever the trimmed operation argument is neither "upload" nor
"download", no authority subprocess is ever spawned (for *any* world state),
and — provided the run reaches the operation check (arity, configuration,
secret and repository valid) — the handler stops with the invalid-operation
validation error. -/
theorem claimC4_invalid_operation (w : World) (mac : List Nat → List Nat → List Nat)
    (args : List String) (now : Int) (a0 a1 a2 : String) (cfg : Config)
    (secret : List Nat) :
    (goTrim (args.getD 2 "") ≠ "upload" → goTrim (args.getD 2 "") ≠ "download" →
      (mainRun w mac args now).2 = []) ∧
    (w.config = ConfigLoad.loaded cfg → stdB64Decode cfg.secret = some secret →
      goTrim a1 ≠ "" → goTrim a2 ≠ "upload" → goTrim a2 ≠ "download" →
      (mainRun w mac [a0, a1, a2] now).1 = .error (.invalidOperation (goTrim a2)) ∧
      (mainRun w mac [a0, a1, a2] now).2 = []) := by
  constructor
  · intro h2 h3
    simp only [mainRun]
    repeat' split <;> try rfl
    all_goals exact absurd (⟨h2, h3⟩ : goTrim (args.getD 2 "") ≠ "upload" ∧
      goTrim (args.getD 2 "") ≠ "download") (by assumption)
  · intro hcfg hsec hrepo hop2 hop3
    constructor
    · simp [mainRun, hcfg, hsec, hrepo, hop2, hop3]
    · simp [mainRun, hcfg, hsec, hrepo, hop2, hop3]

theorem claimC4_invalid_operation_witness :
    goTrim "frob" ≠ "upload" ∧ goTrim "frob" ≠ "download" ∧
    (mainRun (wGitolite 0) macZero ["git-lfs-authenticate", "repo", "frob"] 0).1 =
      .error (.invalidOperation (goTrim "frob")) ∧
    (mainRun (wGitolite 0) macZero ["git-lfs-authenticate", "repo", "frob"] 0).2 = [] := by
  have h := (claimC4_invalid_operation (wGitolite 0) macZero
    ["git-lfs-authenticate", "repo", "frob"] 0 "git-lfs-authenticate" "repo" "frob"
    cfgTest []).2 rfl rfl (by decide) (by decide) (by decide)
  exact ⟨by decide, by decide, h.1, h.2⟩

/-- C5: a supplied object-identifier argument that does not hex-decode to
exactly 32 bytes makes the handler stop with the invalid-OID validation
error before any authority subprocess is spawned, for every authority state;
with no fourth argument no object-identifier check happens — the
invalid-OID failure class is unreachable. -/
theorem claimC5_invalid_oid (w : World) (mac : List Nat → List Nat → List Nat)
    (a0 a1 a2 a3 : String) (now : Int) (cfg : Config) (secret : List Nat)
    (hcfg : w.config = ConfigLoad.loaded cfg)
    (hsec : stdB64Decode cfg.secret = some secret)
    (hrepo : goTrim a1 ≠ "")
    (hop : goTrim a2 = "upload" ∨ goTrim a2 = "download") :
    (validOid a3 = false →
      (mainRun w mac [a0, a1, a2, a3] now).1 = .error (.invalidOid a3) ∧
      (mainRun w mac [a0, a1, a2, a3] now).2 = []) ∧
    (∀ s, (mainRun w mac [a0, a1, a2] now).1 ≠ .error (.invalidOid s)) := by
  constructor
  · intro hoid
    rcases hop with hop | hop <;>
      exact ⟨by simp [mainRun, hcfg, hsec, hrepo, hop, hoid],
        by simp [mainRun, hcfg, hsec, hrepo, hop, hoid]⟩
  · intro s
    simp only [mainRun]
    repeat' split <;> try simp

theorem claimC5_invalid_oid_witness :
    validOid "zz" = false ∧
    (mainRun (wGitolite 0) macZero
      ["git-lfs-authenticate", "repo", "download", "zz"] 0).1 = .error (.invalidOid "zz") ∧
    (mainRun (wGitolite 0) macZero
      ["git-lfs-authenticate", "repo", "download", "zz"] 0).2 = [] := by
  have h := (claimC5_invalid_oid (wGitolite 0) macZero "git-lfs-authenticate" "repo"
    "download" "zz" 0 cfgTest [] rfl rfl (by decide) (Or.inr (by decide))).1 (by decide)
  exact ⟨by decide, h.1, h.2⟩

/-- C10: for a trimmed resource argument ending in ".git", the authority is
queried with the ".git"-stripped name, while the issued token is built from
the original trimmed argument — its `repo` claim carries the unstripped
name — so the authorised name and the attested name differ. -/
theorem claimC10_strip_authority_only (w : World) (mac : List Nat → List Nat → List Nat)
    (a0 a1 a2 : String) (now : Int) (cfg : Config) (secret : List Nat)
    (run : String → String → String → ProcResult) (hg : w.gitolite = some run)
    (hcfg : w.config = ConfigLoad.loaded cfg)
    (hsec : stdB64Decode cfg.secret = some secret)
    (hrepo : goTrim a1 ≠ "")
    (hgit : (".git").data.isSuffixOf (goTrim a1).data = true)
    (hop : goTrim a2 = "upload" ∨ goTrim a2 = "download")
    (huser : goTrim w.glUser ≠ "") :
    (mainRun w mac [a0, a1, a2] now).2 =
      [.gitolite (stripGitSuffix (goTrim a1)) (goTrim w.glUser)
        (if goTrim a2 = "upload" then "W" else "R")] ∧
    (run (stripGitSuffix (goTrim a1)) (goTrim w.glUser)
        (if goTrim a2 = "upload" then "W" else "R") = .exited 0 →
      (mainRun w mac [a0, a1, a2] now).1 =
        .ok ⟨[("Authorization", "Bearer " ++ issueToken mac secret (goTrim w.glUser)
          (goTrim a1) (goTrim a2) now)], cfg.href⟩) ∧
    List.lookup "repo" (makeClaims (goTrim w.glUser) (goTrim a1) (goTrim a2) now) =
      some (.str (goTrim a1)) ∧
    stripGitSuffix (goTrim a1) ≠ goTrim a1 := by
  refine ⟨?_, ?_, by simp [makeClaims, List.lookup], stripGitSuffix_ne _ hgit⟩
  · rw [mainRun_reach_access w mac a0 a1 a2 now cfg secret hcfg hsec hrepo hop huser]
    rw [checkAccessT_gitolite w run hg]
    cases hr : run (stripGitSuffix (goTrim a1)) (goTrim w.glUser)
        (if goTrim a2 = "upload" then "W" else "R") with
    | exited k =>
      cases k with
      | zero => rfl
      | succ n => rfl
    | failed m => rfl
  · intro hallow
    rw [mainRun_reach_access w mac a0 a1 a2 now cfg secret hcfg hsec hrepo hop huser]
    rw [checkAccessT_gitolite w run hg, hallow]

theorem claimC10_strip_authority_only_witness :
    (".git").data.isSuffixOf (goTrim "team/app.git").data = true ∧
    (mainRun (wGitolite 0) macZero argsDL 0).2 =
      [.gitolite (stripGitSuffix (goTrim "team/app.git")) (goTrim (wGitolite 0).glUser)
        (if goTrim "download" = "upload" then "W" else "R")] ∧
    stripGitSuffix (goTrim "team/app.git") ≠ goTrim "team/app.git" := by
  have h := claimC10_strip_authority_only (wGitolite 0) macZero "git-lfs-authenticate"
    "team/app.git" "download" 0 cfgTest [] (fun _ _ _ => ProcResult.exited 0) rfl rfl rfl
    (by decide) (by decide) (Or.inr (by decide)) (by decide)
  exact ⟨by decide, h.1, h.2.2.2⟩

theorem isOneLine_of_data (s : String) (l : List Char) (hd : s.data = l ++ ['\n'])
    (h : '\n' ∉ l) : isOneLine s = true := by
  unfold isOneLine
  rw [hd, List.reverse_append, List.reverse_singleton, List.singleton_append]
  simp [List.elem_eq_mem, List.mem_reverse, h]

theorem isOneLine_oid (s : String) :
    isOneLine ("Error: invalid OID " ++ goQuote s ++ ".\n") = true := by
  apply isOneLine_of_data _
    (("Error: invalid OID ").data ++ (goQuote s).data ++ ['.'])
  · rw [data_append, data_append, show (".\n").data = ['.', '\n'] from rfl]
    simp [List.append_assoc]
  · intro hm
    simp only [List.mem_append] at hm
    rcases hm with (hm | hm) | hm
    · revert hm
      decide
    · exact (noNl_iff (goQuote s)).mp (goQuote_noNl s) hm
    · simp at hm

/-- C8 (amended): every failure writes its diagnostic to the error stream
and exits with status 1 with nothing on standard output, and the serialized
response is written exactly on success (exit 0, no stderr); every failure
diagnostic is one line — except the invalid-operation diagnostic, whose
format string contains an embedded newline and spans two lines — provided
the environment-supplied error texts are newline-free. -/
theorem claimC8_error_rendering :
    (∀ (w : World) (mac : List Nat → List Nat → List Nat) (args : List String)
      (now : Int) (e : ErrClass), (mainRun w mac args now).1 = .error e →
      runExit w mac args now = 1 ∧ runStdout w mac args now = none ∧
      runStderr w mac args now = some (errMsg e) ∧
      (errClean e = true → isInvalidOpE e = false → isOneLine (errMsg e) = true)) ∧
    (∀ (w : World) (mac : List Nat → List Nat → List Nat) (args : List String)
      (now : Int) (r : Response), (mainRun w mac args now).1 = .ok r →
      runExit w mac args now = 0 ∧ runStdout w mac args now = some (encodeResponse r) ∧
      runStderr w mac args now = none) := by
  constructor
  · intro w mac args now e he
    refine ⟨?_, ?_, ?_, ?_⟩
    · unfold runExit
      rw [he]
    · unfold runStdout
      rw [he]
    · unfold runStderr
      rw [he]
    · intro hclean hnotop
      cases e with
      | usage => decide
      | configOpen m =>
        exact isOneLine_wrap "Error: failed to open config file: " m (by decide) hclean
      | configDecode m =>
        exact isOneLine_wrap "Error: failed to decode config: " m (by decide) hclean
      | secretDecode => decide
      | invalidRepo r2 =>
        exact isOneLine_wrap "Error: invalid repo name " (goQuote r2) (by decide)
          (goQuote_noNl r2)
      | invalidOperation o => simp [isInvalidOpE] at hnotop
      | invalidOid s => exact isOneLine_oid s
      | missingUser => decide
      | authority m =>
        exact isOneLine_wrap "Error: failed to find gitolite command: " m (by decide) hclean
      | denied => decide
  · intro w mac args now r hr
    refine ⟨?_, ?_, ?_⟩ <;>
      first
        | (unfold runExit; rw [hr])
        | (unfold runStdout; rw [hr])
        | (unfold runStderr; rw [hr])

/-- C8 counterexample: an invalid operation is a failing invocation whose
diagnostic is not one line — the format string of authenticate.go line 100
contains an embedded `\n` before `. Expected ...`, so stderr gets two
lines. -/
theorem claimC8_counterexample :
    (mainRun (wGitolite 0) macZero ["git-lfs-authenticate", "repo", "frob"] 0).1 =
      .error (.invalidOperation "frob") ∧
    runStderr (wGitolite 0) macZero ["git-lfs-authenticate", "repo", "frob"] 0 =
      some (errMsg (.invalidOperation "frob")) ∧
    isOneLine (errMsg (.invalidOperation "frob")) = false :=
  ⟨rfl, rfl, by decide⟩

theorem claimC8_error_rendering_witness :
    (mainRun (wGitolite 1) macZero argsDL 0).1 = .error .denied ∧
    runExit (wGitolite 1) macZero argsDL 0 = 1 ∧
    runStdout (wGitolite 1) macZero argsDL 0 = none ∧
    runStderr (wGitolite 1) macZero argsDL 0 = some (errMsg .denied) ∧
    isOneLine (errMsg .denied) = true := by
  have h := claimC8_error_rendering.1 (wGitolite 1) macZero argsDL 0 .denied rfl
  exact ⟨rfl, h.1, h.2.1, h.2.2.1, h.2.2.2 rfl rfl⟩
